import Mathlib

/-!
Verification of the proxy-pool allocation / override engine of the
Random-image-api repository.

The repository ships the admin frontend (React pages under
`src/frontend/src/pages` and `src/unnamed/part_*`); the backend allocation
engine (Capacity Model, Allocation Planner, Override Store, Binding
Registry, Recompute Coordinator) is not part of the shipped sources, so
those components are modelled from the specification (spec.md §3–§4, §6),
faithful to its words.  Frontend logic that the claims cite
(`BindingsPage.tsx`, `setPoolEndpoints` in the pools page) is embedded
directly from the source.
-/

/-! ## Data model (spec §3) -/

/-- Modelled from the spec (§3 PoolMembership): the backend membership
record is not under `src/`.  `(pool, endpoint) → weight` with a
member-enabled flag; the endpoint's own enabled/reachable state is folded
into `endpointEnabled`. -/
structure PoolMembership where
  endpointId : Nat
  weight : ℚ
  memberEnabled : Bool
  endpointEnabled : Bool
deriving Repr, DecidableEq

/-- Modelled from the spec (§3): a membership is active iff both the
endpoint and the membership are enabled. -/
def PoolMembership.active (m : PoolMembership) : Bool :=
  m.memberEnabled && m.endpointEnabled

/-- Modelled from the spec (§3 Binding): the persisted binding record of
the Binding Registry (not under `src/`).  Timestamps are integers
(milliseconds). -/
structure Binding where
  id : Nat
  tokenId : Nat
  poolId : Nat
  primaryEndpointId : Option Nat
  overrideEndpointId : Option Nat
  overrideExpiresAt : Option Int
  updatedAt : Int
deriving Repr, DecidableEq

/-- Effective mode of a binding: primary vs override (spec §3). -/
inductive EffMode where
  | primary
  | override
deriving Repr, DecidableEq

/-- Modelled from the spec (§3, §4.3 `effective`): pure function of the
binding and the current instant; the override endpoint wins iff it is set
and `override_expires_at > now`, else the primary endpoint. -/
def effective (b : Binding) (now : Int) : Option Nat × EffMode :=
  match b.overrideEndpointId, b.overrideExpiresAt with
  | some e, some t => if now < t then (some e, .override) else (b.primaryEndpointId, .primary)
  | _, _ => (b.primaryEndpointId, .primary)

/-! ## Capacity Model (spec §4.1) -/

/-- Half-up rounding of a rational, the `round(...)` of spec §4.1. -/
def jsRound (q : ℚ) : Int := ⌊q + 1/2⌋

/-- Modelled from the spec (§4.1): slots granted to one active endpoint,
`slots_e = round(weight_e * max_slots_per_endpoint)` (clamped at 0 since
weights are non-negative). -/
def slotsOf (maxSlots : Nat) (m : PoolMembership) : Nat :=
  (jsRound (m.weight * maxSlots)).toNat

/-- The active memberships of a pool. -/
def activeMemberships (ms : List PoolMembership) : List PoolMembership :=
  ms.filter PoolMembership.active

/-- Modelled from the spec (§4.1): `weight_sum = Σ weight_e` over active
memberships. -/
def weightSum (ms : List PoolMembership) : ℚ :=
  ((activeMemberships ms).map PoolMembership.weight).sum

/-- Modelled from the spec (§4.1): the number of active endpoints. -/
def endpointCount (ms : List PoolMembership) : Nat :=
  (activeMemberships ms).length

/-- Modelled from the spec (§4.1): `capacity = Σ slots_e` over active
memberships. -/
def capacity (maxSlots : Nat) (ms : List PoolMembership) : Nat :=
  ((activeMemberships ms).map (slotsOf maxSlots)).sum

/-! ## Allocation Planner (spec §4.2) -/

/-- Planner running state for one endpoint: its identifier, nominal slot
count from the Capacity Model, and the running fill count. -/
structure EpState where
  id : Nat
  slots : Nat
  filled : Nat
deriving Repr, DecidableEq

/-- The remaining-capacity fraction `(slots_e - filled_e) / slots_e` of
spec §4.2 (with the junk value 0 for a zero-slot endpoint, as `x / 0 = 0`
in `ℚ`). -/
def remFrac (e : EpState) : ℚ :=
  ((e.slots : ℚ) - e.filled) / e.slots

/-- Integer numerator used to compare remaining-capacity fractions
without rational division. -/
def fracNum (e : EpState) : Int :=
  if e.slots = 0 then 0 else (e.slots : Int) - e.filled

/-- Integer denominator used to compare remaining-capacity fractions. -/
def fracDen (e : EpState) : Nat :=
  if e.slots = 0 then 1 else e.slots

/-- Modelled from the spec (§4.2): `a` is strictly preferred over `b` iff
`a` has the larger remaining-capacity fraction, ties broken by ascending
endpoint identifier.  Implemented by cross-multiplication so that it is
kernel-computable; `betterEp_iff_remFrac` relates it to the `ℚ`
fractions. -/
def betterEp (a b : EpState) : Bool :=
  decide (fracNum b * fracDen a < fracNum a * fracDen b) ||
    (decide (fracNum a * (fracDen b : Int) = fracNum b * fracDen a) && decide (a.id < b.id))

/-- Can this endpoint still take a credential within its nominal slots? -/
def canFill (e : EpState) : Bool := e.filled < e.slots

/-- Pick, among the entries satisfying `p`, the one with the largest
remaining-capacity fraction (ties: ascending endpoint id, then earliest
list position); returns its index and value. -/
def pickIdx (p : EpState → Bool) : List EpState → Option (Nat × EpState)
  | [] => none
  | e :: es =>
    match pickIdx p es with
    | none => if p e then some (0, e) else none
    | some (i, b) =>
      if p e then
        if betterEp b e then some (i + 1, b) else some (0, e)
      else some (i + 1, b)

/-- One more credential routed to this endpoint. -/
def bumped (e : EpState) : EpState := ⟨e.id, e.slots, e.filled + 1⟩

/-- Successful planner output: assignment list (credential id, endpoint
id) in credential order, the over-capacity counter, and the final fill
state. -/
structure PlanOk where
  assignments : List (Nat × Nat)
  overCapacityAssigned : Nat
  finalEps : List EpState
deriving Repr, DecidableEq

/-- Modelled from the spec (§4.2): iterate credentials in order; assign
each to the endpoint with the largest remaining-capacity fraction among
those with free nominal slots; when no endpoint has free slots, a strict
pass aborts (`none`) while a lenient pass keeps cycling through the
endpoints in the same fraction order, counting `over_capacity_assigned`.
`none` in a lenient pass is only possible when there is no endpoint at
all. -/
def planLoop (strict : Bool) : List Nat → List EpState → Option PlanOk
  | [], es => some ⟨[], 0, es⟩
  | c :: cs, es =>
    match pickIdx canFill es with
    | some (i, e) =>
      (planLoop strict cs (es.set i (bumped e))).map fun r =>
        ⟨(c, e.id) :: r.assignments, r.overCapacityAssigned, r.finalEps⟩
    | none =>
      if strict then none
      else
        match pickIdx (fun _ => true) es with
        | some (i, e) =>
          (planLoop strict cs (es.set i (bumped e))).map fun r =>
            ⟨(c, e.id) :: r.assignments, r.overCapacityAssigned + 1, r.finalEps⟩
        | none => none

/-- Total remaining nominal capacity of the endpoint table. -/
def totalRem (es : List EpState) : Nat :=
  (es.map fun e => e.slots - e.filled).sum

/-- Total number of credentials filled beyond nominal slots. -/
def overShoot (es : List EpState) : Nat :=
  (es.map fun e => e.filled - e.slots).sum

/-- Ascending sort of credential identifiers (spec §4.2: order =
ascending identifier, for determinism). -/
def sortNat (l : List Nat) : List Nat := List.insertionSort (· ≤ ·) l

/-- Initial endpoint slot table for a pool (spec §4.1 → §4.2). -/
def epStatesOf (maxSlots : Nat) (ms : List PoolMembership) : List EpState :=
  (activeMemberships ms).map fun m => ⟨m.endpointId, slotsOf maxSlots m, 0⟩

/-- Modelled from the spec (§4.2): the deterministic credential → endpoint
map the Planner produces for a pool, `none` on a strict shortfall. -/
def planAssignments (ms : List PoolMembership) (creds : List Nat) (maxSlots : Nat)
    (strict : Bool) : Option (List (Nat × Nat)) :=
  (planLoop strict (sortNat creds) (epStatesOf maxSlots ms)).map PlanOk.assignments

/-! ## Binding Registry and Recompute Coordinator (spec §4.4, §6) -/

instance {ε α : Type} [DecidableEq ε] [DecidableEq α] : DecidableEq (Except ε α) := fun x y =>
  match x, y with
  | .error a, .error b =>
    if h : a = b then .isTrue (by rw [h]) else .isFalse (fun hh => h (Except.error.inj hh))
  | .error _, .ok _ => .isFalse (fun hh => Except.noConfusion hh)
  | .ok _, .error _ => .isFalse (fun hh => Except.noConfusion hh)
  | .ok a, .ok b =>
    if h : a = b then .isTrue (by rw [h]) else .isFalse (fun hh => h (Except.ok.inj hh))

/-- Diagnostic payload of a strict capacity shortfall (spec §6). -/
structure CapacityDiag where
  token_count : Nat
  endpoint_count : Nat
  max_slots_per_endpoint : Nat
  weight_sum : ℚ
  capacity : Nat
deriving Repr, DecidableEq

/-- Success counters of a recompute (spec §4.4 step 5, §6). -/
structure RecomputeOk where
  pool_id : Nat
  recomputed : Nat
  strict : Bool
  over_capacity_assigned : Nat
  capacity : Nat
  token_count : Nat
  endpoint_count : Nat
  max_slots_per_endpoint : Nat
deriving Repr, DecidableEq

/-- Modelled from the spec (§4.4 step 4): overwrite `primary_endpoint_id`
(and `updated_at`) of the binding of `(tok, pool)`, touching no other
field; `none` when no such binding exists. -/
def setPrimary (tok pool ep : Nat) (now : Int) : List Binding → Option (List Binding)
  | [] => none
  | b :: bs =>
    if b.tokenId = tok ∧ b.poolId = pool then
      some ({ b with primaryEndpointId := some ep, updatedAt := now } :: bs)
    else
      (setPrimary tok pool ep now bs).map (b :: ·)

/-- A fresh binding identifier for a newly created binding. -/
def freshId (reg : List Binding) : Nat :=
  (reg.map Binding.id).foldr max 0 + 1

/-- Modelled from the spec (§4.4 step 4): commit one planner assignment —
update the existing binding's primary endpoint, or create the binding
when it does not exist yet (override fields start null). -/
def commitOne (pool : Nat) (now : Int) (reg : List Binding) (a : Nat × Nat) : List Binding :=
  match setPrimary a.1 pool a.2 now reg with
  | some reg2 => reg2
  | none => reg ++ [⟨freshId reg, a.1, pool, some a.2, none, none, now⟩]

/-- Modelled from the spec (§4.4 step 4): the atomic commit of a whole
planner assignment list into the Binding Registry. -/
def commitAssignments (pool : Nat) (now : Int) (reg : List Binding)
    (asg : List (Nat × Nat)) : List Binding :=
  asg.foldl (commitOne pool now) reg

/-- Modelled from the spec (§4.4 `recompute`): load is abstracted into the
`ms`/`creds` arguments; run the Capacity Model and the Planner on the
ascending credential list; a strict shortfall returns the capacity
diagnostic without touching `reg`; success commits the new primary
assignments and returns the counters. -/
def recompute (reg : List Binding) (poolId : Nat) (ms : List PoolMembership)
    (creds : List Nat) (maxSlots : Nat) (strict : Bool) (now : Int) :
    Except CapacityDiag (List Binding × RecomputeOk) :=
  let cs := sortNat creds
  match planLoop strict cs (epStatesOf maxSlots ms) with
  | none =>
    .error ⟨cs.length, endpointCount ms, maxSlots, weightSum ms, capacity maxSlots ms⟩
  | some r =>
    .ok (commitAssignments poolId now reg r.assignments,
      ⟨poolId, r.assignments.length, strict, r.overCapacityAssigned,
        capacity maxSlots ms, cs.length, endpointCount ms, maxSlots⟩)

/-- The registry after a recompute call: unchanged when the call fails
(spec §4.4 step 3, the sticky-bindings invariant). -/
def applyRecompute (reg : List Binding) (poolId : Nat) (ms : List PoolMembership)
    (creds : List Nat) (maxSlots : Nat) (strict : Bool) (now : Int) :
    List Binding × Option CapacityDiag :=
  match recompute reg poolId ms creds maxSlots strict now with
  | .ok (reg2, _) => (reg2, none)
  | .error d => (reg, some d)

/-! ## Override Store (spec §4.3) -/

/-- Error taxonomy of the override operations (spec §4.3, §7). -/
inductive ApiErr where
  | validationError
  | notFound
deriving Repr, DecidableEq

/-- Modelled from the spec (§4.3): the configured maximum override TTL,
30 days = 43200 minutes, in milliseconds. -/
def maxOverrideTtlMs : Int := 43200 * 60 * 1000

/-- Is `epId` an active member of the pool's membership set? -/
def activeMemberFor (ms : List PoolMembership) (epId : Nat) : Bool :=
  (activeMemberships ms).any fun m => m.endpointId = epId

/-- Modelled from the spec (§4.3 `set_override`): validates the TTL bound
and the endpoint's active membership, requires the binding to exist, and
on success sets both override fields (`override_expires_at = now + ttl`)
of exactly that binding. -/
def setOverride (reg : List Binding) (ms : List PoolMembership) (bindingId epId : Nat)
    (ttlMs now : Int) : Except ApiErr (List Binding) :=
  if ttlMs ≤ 0 ∨ maxOverrideTtlMs < ttlMs then .error .validationError
  else if ¬ activeMemberFor ms epId then .error .validationError
  else if ¬ reg.any (fun b => b.id = bindingId) then .error .notFound
  else
    .ok (reg.map fun b =>
      if b.id = bindingId then
        { b with
          overrideEndpointId := some epId
          overrideExpiresAt := some (now + ttlMs)
          updatedAt := now }
      else b)

/-- The registry after a set-override call: unchanged when the call
fails. -/
def applySetOverride (reg : List Binding) (ms : List PoolMembership) (bindingId epId : Nat)
    (ttlMs now : Int) : List Binding × Option ApiErr :=
  match setOverride reg ms bindingId epId ttlMs now with
  | .ok reg2 => (reg2, none)
  | .error e => (reg, some e)

/-- Null both override fields of the binding `bindingId`, leave every
other binding alone. -/
def clearUpd (bindingId : Nat) (b : Binding) : Binding :=
  if b.id = bindingId then
    { b with overrideEndpointId := none, overrideExpiresAt := none }
  else b

/-- Modelled from the spec (§4.3 `clear_override`): `NOT_FOUND` when the
binding is missing, otherwise idempotently nulls both override fields of
that binding. -/
def clearOverride (reg : List Binding) (bindingId : Nat) : Except ApiErr (List Binding) :=
  if reg.any (fun b => b.id = bindingId) then .ok (reg.map (clearUpd bindingId))
  else .error .notFound

/-! ## Frontend: recompute request sender (src/frontend/src/pages/BindingsPage.tsx) -/

/-- The JSON body the bindings page posts to
`/admin/api/bindings/recompute` (BindingsPage.tsx, `recompute`
mutation). -/
structure RecomputeRequestBody where
  pool_id : Nat
  max_tokens_per_proxy : Nat
  strict : Bool
deriving Repr, DecidableEq

/-- Embedded from `BindingsPage.tsx` (the `recompute` mutation):
`strict: vars?.strict !== undefined ? Boolean(vars.strict) : true`, where
`vars` itself is optional.  `vars` is modelled as
`Option (Option Bool)`. -/
def recomputeBody (poolId maxTokensPerProxy : Nat) (vars : Option (Option Bool)) :
    RecomputeRequestBody :=
  { pool_id := poolId
    max_tokens_per_proxy := maxTokensPerProxy
    strict :=
      match vars with
      | some (some b) => b
      | _ => true }

/-- Modelled from the spec (§6 Recompute): the request-level operation;
an absent `strict` field defaults to `true`. -/
def recomputeRequest (reg : List Binding) (poolId : Nat) (ms : List PoolMembership)
    (creds : List Nat) (maxSlots : Nat) (strictField : Option Bool) (now : Int) :
    Except CapacityDiag (List Binding × RecomputeOk) :=
  recompute reg poolId ms creds maxSlots (strictField.getD true) now

/-! ## Frontend: pool membership save (src/unnamed/part_010, pools page) -/

/-- A JavaScript number value: a finite rational, NaN, or an infinity. -/
inductive JSNum where
  | fin (q : ℚ)
  | nan
  | posInf
  | negInf
deriving Repr, DecidableEq

/-- JavaScript truthiness of a number (`NaN`, `0` and `-0` are falsy). -/
def JSNum.truthy : JSNum → Bool
  | .fin q => decide (q ≠ 0)
  | .nan => false
  | .posInf => true
  | .negInf => true

/-- `Number.isFinite`. -/
def JSNum.isFiniteNum : JSNum → Bool
  | .fin _ => true
  | _ => false

/-- The JavaScript comparison `v > 0`. -/
def JSNum.gtZero : JSNum → Bool
  | .fin q => decide (0 < q)
  | .posInf => true
  | _ => false

/-- Per-member configuration of the pools page
(src/unnamed/part_010, `type MemberConfig`); `weight` is a JS number. -/
structure MemberConfig where
  enabled : Bool
  weight : JSNum
deriving Repr, DecidableEq

/-- One item of the `POST .../endpoints` body built by the pools page. -/
structure PoolEndpointItem where
  endpoint_id : JSNum
  enabled : Bool
  weight : JSNum
deriving Repr, DecidableEq

/-- Embedded from `setPoolEndpoints` (src/unnamed/part_010, lines
489–502), the `.map` body: `cfg = config[id] || { enabled: true,
weight: 1 }` then `{ endpoint_id: Number(id), enabled:
Boolean(cfg.enabled), weight: Number(cfg.weight) || 1 }`.  Each selected
id is given here as the pair of its numeric value `Number(id)` and the
lookup result `config[id]`. -/
def buildPoolItem (idNum : JSNum) (cfg : Option MemberConfig) : PoolEndpointItem :=
  let c := cfg.getD ⟨true, .fin 1⟩
  { endpoint_id := idNum
    enabled := c.enabled
    weight := if c.weight.truthy then c.weight else .fin 1 }

/-- Embedded from `setPoolEndpoints` (src/unnamed/part_010, lines
489–502): the `items` array actually sent — the mapped items filtered by
`Number.isFinite(v.endpoint_id) && v.endpoint_id > 0`. -/
def setPoolEndpointsItems (sel : List (JSNum × Option MemberConfig)) :
    List PoolEndpointItem :=
  (sel.map fun p => buildPoolItem p.1 p.2).filter fun v =>
    v.endpoint_id.isFiniteNum && v.endpoint_id.gtZero

/-- `b'` is the same binding as `b` with the same override state: only
`primary_endpoint_id` and `updated_at` may differ. -/
def sameFrame (b b' : Binding) : Prop :=
  b'.id = b.id ∧ b'.tokenId = b.tokenId ∧ b'.poolId = b.poolId ∧
    b'.overrideEndpointId = b.overrideEndpointId ∧ b'.overrideExpiresAt = b.overrideExpiresAt

/-! ## Planner lemmas -/

theorem remFrac_eq_div (e : EpState) : remFrac e = (fracNum e : ℚ) / (fracDen e : ℚ) := by
  rw [remFrac, fracNum, fracDen]
  by_cases h : e.slots = 0
  · rw [if_pos h, if_pos h, h]
    simp
  · rw [if_neg h, if_neg h]
    push_cast
    rfl

/-- The kernel-computable comparison agrees with the spec's
remaining-capacity-fraction order with ascending-id tie-break. -/
theorem betterEp_iff_remFrac (a b : EpState) :
    betterEp a b = true ↔
      remFrac b < remFrac a ∨ (remFrac a = remFrac b ∧ a.id < b.id) := by
  have hda : (0 : ℚ) < (fracDen a : ℚ) := by
    rw [fracDen]
    split
    · norm_num
    · exact_mod_cast Nat.pos_of_ne_zero (by assumption)
  have hdb : (0 : ℚ) < (fracDen b : ℚ) := by
    rw [fracDen]
    split
    · norm_num
    · exact_mod_cast Nat.pos_of_ne_zero (by assumption)
  rw [remFrac_eq_div a, remFrac_eq_div b, div_lt_div_iff₀ hdb hda,
    div_eq_div_iff (ne_of_gt hda) (ne_of_gt hdb), betterEp]
  simp only [Bool.or_eq_true, Bool.and_eq_true, decide_eq_true_eq]
  constructor
  · rintro (h | ⟨h1, h2⟩)
    · left
      exact_mod_cast h
    · right
      exact ⟨by exact_mod_cast h1, h2⟩
  · rintro (h | ⟨h1, h2⟩)
    · left
      exact_mod_cast h
    · right
      exact ⟨by exact_mod_cast h1, h2⟩

theorem pickIdx_eq_none_iff (p : EpState → Bool) (es : List EpState) :
    pickIdx p es = none ↔ ∀ e ∈ es, p e = false := by
  induction es with
  | nil => simp [pickIdx]
  | cons e es ih =>
    cases h : pickIdx p es with
    | none =>
      cases hp : p e with
      | false =>
        simp only [pickIdx, h, hp, List.mem_cons]
        constructor
        · rintro - x (rfl | hx)
          · exact hp
          · exact ih.mp h x hx
        · intro _; rfl
      | true => simp [pickIdx, h, hp, List.mem_cons]
    | some ie =>
      obtain ⟨i, b⟩ := ie
      have hne : ¬ ∀ x ∈ es, p x = false := fun hall => by
        rw [ih.mpr hall] at h; exact Option.noConfusion h
      cases hp : p e with
      | false =>
        simp only [pickIdx, h, hp]
        constructor
        · intro hh; exact Option.noConfusion hh
        · intro hall
          exact absurd (fun x hx => hall x (List.mem_cons_of_mem _ hx)) hne
      | true =>
        simp only [pickIdx, h, hp]
        constructor
        · intro hh
          cases hb : betterEp b e <;> simp [hb] at hh
        · intro hall
          exact absurd (fun x hx => hall x (List.mem_cons_of_mem _ hx)) hne

theorem pickIdx_get (p : EpState → Bool) (es : List EpState) (i : Nat) (e : EpState)
    (h : pickIdx p es = some (i, e)) : es.get? i = some e ∧ p e = true := by
  induction es generalizing i with
  | nil => exact Option.noConfusion h
  | cons a as ih =>
    cases hrec : pickIdx p as with
    | none =>
      rw [pickIdx, hrec] at h
      dsimp only at h
      cases hp : p a with
      | false => rw [hp, if_neg Bool.false_ne_true] at h; exact Option.noConfusion h
      | true =>
        rw [hp, if_pos rfl] at h
        simp only [Option.some.injEq, Prod.mk.injEq] at h
        obtain ⟨hi, he⟩ := h
        subst hi; subst he
        exact ⟨rfl, hp⟩
    | some jb =>
      obtain ⟨j, b⟩ := jb
      rw [pickIdx, hrec] at h
      dsimp only at h
      cases hp : p a with
      | false =>
        rw [hp, if_neg Bool.false_ne_true] at h
        simp only [Option.some.injEq, Prod.mk.injEq] at h
        obtain ⟨hi, he⟩ := h
        subst he
        obtain ⟨h1, h2⟩ := ih j hrec
        subst hi
        exact ⟨h1, h2⟩
      | true =>
        rw [hp, if_pos rfl] at h
        by_cases hb : betterEp b a = true
        · rw [if_pos hb] at h
          simp only [Option.some.injEq, Prod.mk.injEq] at h
          obtain ⟨hi, he⟩ := h
          subst he
          obtain ⟨h1, h2⟩ := ih j hrec
          subst hi
          exact ⟨h1, h2⟩
        · rw [if_neg hb] at h
          simp only [Option.some.injEq, Prod.mk.injEq] at h
          obtain ⟨hi, he⟩ := h
          subst hi; subst he
          exact ⟨rfl, hp⟩

theorem totalRem_set_bump (es : List EpState) (i : Nat) (e : EpState)
    (hget : es.get? i = some e) (hfill : canFill e = true) :
    totalRem (es.set i (bumped e)) + 1 = totalRem es := by
  induction es generalizing i with
  | nil => exact Option.noConfusion hget
  | cons a as ih =>
    cases i with
    | zero =>
      simp only [List.get?] at hget
      injection hget with hget
      subst hget
      simp only [canFill, decide_eq_true_eq] at hfill
      simp only [List.set, totalRem, List.map_cons, List.sum_cons, bumped]
      omega
    | succ j =>
      simp only [List.get?] at hget
      have := ih j hget
      simp only [List.set, totalRem, List.map_cons, List.sum_cons]
      simp only [totalRem] at this
      omega

theorem totalRem_eq_zero (es : List EpState) (h : ∀ e ∈ es, canFill e = false) :
    totalRem es = 0 := by
  induction es with
  | nil => rfl
  | cons a as ih =>
    have ha := h a (List.mem_cons_self a as)
    simp only [canFill, decide_eq_false_iff_not, Nat.not_lt] at ha
    have : totalRem as = 0 := ih fun e he => h e (List.mem_cons_of_mem _ he)
    simp only [totalRem, List.map_cons, List.sum_cons]
    simp only [totalRem] at this
    omega

theorem planLoop_strict_none_iff (cs : List Nat) (es : List EpState) :
    planLoop true cs es = none ↔ totalRem es < cs.length := by
  induction cs generalizing es with
  | nil => simp [planLoop]
  | cons c cs ih =>
    cases hpick : pickIdx canFill es with
    | none =>
      have h0 : totalRem es = 0 := totalRem_eq_zero es ((pickIdx_eq_none_iff _ _).mp hpick)
      simp [planLoop, hpick, h0, List.length_cons, Nat.succ_pos]
    | some ie =>
      obtain ⟨i, e⟩ := ie
      obtain ⟨hget, hfill⟩ := pickIdx_get _ _ _ _ hpick
      have hrem := totalRem_set_bump es i e hget hfill
      have hiff := ih (es.set i (bumped e))
      simp only [planLoop, hpick]
      constructor
      · intro hh
        have hnone : planLoop true cs (es.set i (bumped e)) = none := by
          cases hplan : planLoop true cs (es.set i (bumped e)) with
          | none => rfl
          | some r => rw [hplan] at hh; exact Option.noConfusion hh
        have := hiff.mp hnone
        simp only [List.length_cons]
        omega
      · intro hh
        have hnone : planLoop true cs (es.set i (bumped e)) = none := by
          apply hiff.mpr
          simp only [List.length_cons] at hh
          omega
        rw [hnone]
        rfl

theorem overShoot_set_bump_canFill (es : List EpState) (i : Nat) (e : EpState)
    (hget : es.get? i = some e) (hfill : canFill e = true) :
    overShoot (es.set i (bumped e)) = overShoot es := by
  induction es generalizing i with
  | nil => exact Option.noConfusion hget
  | cons a as ih =>
    cases i with
    | zero =>
      simp only [List.get?] at hget
      injection hget with hget
      subst hget
      simp only [canFill, decide_eq_true_eq] at hfill
      simp only [List.set, overShoot, List.map_cons, List.sum_cons, bumped]
      omega
    | succ j =>
      simp only [List.get?] at hget
      have := ih j hget
      simp only [List.set, overShoot, List.map_cons, List.sum_cons]
      simp only [overShoot] at this
      omega

theorem overShoot_set_bump_full (es : List EpState) (i : Nat) (e : EpState)
    (hget : es.get? i = some e) (hfull : canFill e = false) :
    overShoot (es.set i (bumped e)) = overShoot es + 1 := by
  induction es generalizing i with
  | nil => exact Option.noConfusion hget
  | cons a as ih =>
    cases i with
    | zero =>
      simp only [List.get?] at hget
      injection hget with hget
      subst hget
      simp only [canFill, decide_eq_false_iff_not, Nat.not_lt] at hfull
      simp only [List.set, overShoot, List.map_cons, List.sum_cons, bumped]
      omega
    | succ j =>
      simp only [List.get?] at hget
      have := ih j hget
      simp only [List.set, overShoot, List.map_cons, List.sum_cons]
      simp only [overShoot] at this
      omega

/-- A lenient planner pass over a non-empty endpoint table assigns every
credential in order, and its over-capacity counter grows by exactly the
number of credentials routed beyond nominal slots. -/
theorem planLoop_lenient_total (cs : List Nat) (es : List EpState) (hne : es ≠ []) :
    ∃ r, planLoop false cs es = some r ∧ r.assignments.map Prod.fst = cs ∧
      r.overCapacityAssigned + overShoot es = overShoot r.finalEps := by
  induction cs generalizing es with
  | nil =>
    refine ⟨⟨[], 0, es⟩, rfl, rfl, ?_⟩
    dsimp only
    omega
  | cons c cs ih =>
    have hlen : ∀ i (e : EpState), (es.set i (bumped e)) ≠ [] := by
      intro i e h
      have := congrArg List.length h
      simp only [List.length_set, List.length_nil] at this
      exact hne (List.eq_nil_of_length_eq_zero this)
    cases hpick : pickIdx canFill es with
    | some ie =>
      obtain ⟨i, e⟩ := ie
      obtain ⟨hget, hfill⟩ := pickIdx_get _ _ _ _ hpick
      obtain ⟨r, hr, hmap, hover⟩ := ih (es.set i (bumped e)) (hlen i e)
      refine ⟨⟨(c, e.id) :: r.assignments, r.overCapacityAssigned, r.finalEps⟩, ?_, ?_, ?_⟩
      · simp only [planLoop, hpick, hr, Option.map_some']
      · simp only [List.map_cons, hmap]
      · have := overShoot_set_bump_canFill es i e hget hfill
        simp only [this] at hover
        exact hover
    | none =>
      cases hpick2 : pickIdx (fun _ => true) es with
      | none =>
        exfalso
        have := (pickIdx_eq_none_iff _ _).mp hpick2
        cases es with
        | nil => exact hne rfl
        | cons a as => exact Bool.noConfusion (this a (List.mem_cons_self a as))
      | some ie =>
        obtain ⟨i, e⟩ := ie
        obtain ⟨hget, -⟩ := pickIdx_get _ _ _ _ hpick2
        have hfull : canFill e = false := (pickIdx_eq_none_iff _ _).mp hpick e (by
          have := List.get?_mem hget
          exact this)
        obtain ⟨r, hr, hmap, hover⟩ := ih (es.set i (bumped e)) (hlen i e)
        refine ⟨⟨(c, e.id) :: r.assignments, r.overCapacityAssigned + 1, r.finalEps⟩, ?_, ?_, ?_⟩
        · simp only [planLoop, hpick, hpick2, hr, Option.map_some']
          rfl
        · simp only [List.map_cons, hmap]
        · have hsh := overShoot_set_bump_full es i e hget hfull
          rw [hsh] at hover
          dsimp only
          omega

theorem totalRem_epStatesOf (k : Nat) (ms : List PoolMembership) :
    totalRem (epStatesOf k ms) = capacity k ms := by
  simp only [totalRem, epStatesOf, capacity, List.map_map]
  have hfun : ((fun e => e.slots - e.filled) ∘
      fun m => (⟨m.endpointId, slotsOf k m, 0⟩ : EpState)) = slotsOf k := by
    funext m
    simp
  rw [hfun]

theorem overShoot_epStatesOf (k : Nat) (ms : List PoolMembership) :
    overShoot (epStatesOf k ms) = 0 := by
  simp only [overShoot, epStatesOf, List.map_map]
  induction activeMemberships ms with
  | nil => rfl
  | cons a as ih => simpa using ih

theorem length_epStatesOf (k : Nat) (ms : List PoolMembership) :
    (epStatesOf k ms).length = endpointCount ms := by
  simp [epStatesOf, endpointCount]

theorem sortNat_length (l : List Nat) : (sortNat l).length = l.length :=
  (List.perm_insertionSort _ l).length_eq

/-- Sorting ascending is a deterministic function of the multiset of
credential identifiers. -/
theorem sortNat_eq_of_perm (l1 l2 : List Nat) (h : l1.Perm l2) : sortNat l1 = sortNat l2 := by
  rw [sortNat, sortNat]
  exact List.eq_of_perm_of_sorted
    (((List.perm_insertionSort _ l1).trans h).trans (List.perm_insertionSort _ l2).symm)
    (List.sorted_insertionSort _ l1) (List.sorted_insertionSort _ l2)

/-! ## Commit lemmas: recompute never touches override fields -/

theorem sameFrame_refl (b : Binding) : sameFrame b b := ⟨rfl, rfl, rfl, rfl, rfl⟩

theorem sameFrame_trans {a b c : Binding} (h1 : sameFrame a b) (h2 : sameFrame b c) :
    sameFrame a c := by
  obtain ⟨e1, e2, e3, e4, e5⟩ := h1
  obtain ⟨f1, f2, f3, f4, f5⟩ := h2
  exact ⟨f1.trans e1, f2.trans e2, f3.trans e3, f4.trans e4, f5.trans e5⟩

theorem setPrimary_frame (tok pool ep : Nat) (now : Int) (reg reg2 : List Binding)
    (h : setPrimary tok pool ep now reg = some reg2) :
    ∀ b ∈ reg, ∃ b' ∈ reg2, sameFrame b b' := by
  induction reg generalizing reg2 with
  | nil => exact Option.noConfusion h
  | cons a as ih =>
    rw [setPrimary] at h
    by_cases hc : a.tokenId = tok ∧ a.poolId = pool
    · rw [if_pos hc] at h
      injection h with h
      subst h
      intro b hb
      rcases List.mem_cons.mp hb with rfl | hb
      · exact ⟨_, List.mem_cons_self _ _, ⟨rfl, rfl, rfl, rfl, rfl⟩⟩
      · exact ⟨b, List.mem_cons_of_mem _ hb, sameFrame_refl b⟩
    · rw [if_neg hc] at h
      cases hrec : setPrimary tok pool ep now as with
      | none => rw [hrec] at h; exact Option.noConfusion h
      | some as2 =>
        rw [hrec, Option.map_some'] at h
        injection h with h
        subst h
        intro b hb
        rcases List.mem_cons.mp hb with rfl | hb
        · exact ⟨b, List.mem_cons_self _ _, sameFrame_refl b⟩
        · obtain ⟨b', hb', hf⟩ := ih as2 hrec b hb
          exact ⟨b', List.mem_cons_of_mem _ hb', hf⟩

theorem commitOne_frame (pool : Nat) (now : Int) (reg : List Binding) (a : Nat × Nat) :
    ∀ b ∈ reg, ∃ b' ∈ commitOne pool now reg a, sameFrame b b' := by
  intro b hb
  rw [commitOne]
  cases h : setPrimary a.1 pool a.2 now reg with
  | some reg2 => exact setPrimary_frame _ _ _ _ _ _ h b hb
  | none => exact ⟨b, List.mem_append_left _ hb, sameFrame_refl b⟩

theorem commitAssignments_frame (pool : Nat) (now : Int) (reg : List Binding)
    (asg : List (Nat × Nat)) :
    ∀ b ∈ reg, ∃ b' ∈ commitAssignments pool now reg asg, sameFrame b b' := by
  induction asg generalizing reg with
  | nil => exact fun b hb => ⟨b, hb, sameFrame_refl b⟩
  | cons a as ih =>
    intro b hb
    obtain ⟨b1, hb1, hf1⟩ := commitOne_frame pool now reg a b hb
    obtain ⟨b2, hb2, hf2⟩ := ih (commitOne pool now reg a) b1 hb1
    exact ⟨b2, hb2, sameFrame_trans hf1 hf2⟩

/-! ## Shared concrete-scenario lemmas (spec §8, Scenario A/B inputs) -/

theorem scenarioEps : epStatesOf 2 [⟨11, 1, true, true⟩] = [⟨11, 2, 0⟩] := by
  norm_num [epStatesOf, activeMemberships, PoolMembership.active, slotsOf, jsRound]
  rfl

theorem scenarioWeightSum : weightSum [⟨11, 1, true, true⟩] = 1 := by
  norm_num [weightSum, activeMemberships, PoolMembership.active]

theorem scenarioCapacity : capacity 2 [⟨11, 1, true, true⟩] = 2 := by
  norm_num [capacity, activeMemberships, PoolMembership.active, slotsOf, jsRound]
  rfl

/-! ## Claims -/

/-- C1: the Capacity Model grants each active endpoint
`slots_e = round(weight_e * max_slots_per_endpoint)` and reports
`capacity = Σ slots_e` over active endpoints; Scenario A (one active
endpoint of weight 1, `max_slots_per_endpoint = 2`, five enabled
credentials, strict) is rejected with diagnostic counters
`{token_count: 5, endpoint_count: 1, max_slots_per_endpoint: 2,
weight_sum: 1, capacity: 2}`. -/
theorem claim_C1 :
    (∀ (k : Nat) (ms : List PoolMembership),
      capacity k ms = ((activeMemberships ms).map (slotsOf k)).sum ∧
      ∀ m ∈ activeMemberships ms, slotsOf k m = (jsRound (m.weight * k)).toNat) ∧
    recompute [] 1 [⟨11, 1, true, true⟩] [1, 2, 3, 4, 5] 2 true 0 =
      .error ⟨5, 1, 2, 1, 2⟩ := by
  refine ⟨fun k ms => ⟨rfl, fun m _ => rfl⟩, ?_⟩
  simp only [recompute, scenarioEps, scenarioWeightSum, scenarioCapacity]
  decide

theorem claim_C1_witness :
    ((⟨11, 1, true, true⟩ : PoolMembership) ∈ activeMemberships [⟨11, 1, true, true⟩]) ∧
    slotsOf 2 ⟨11, 1, true, true⟩ =
      (jsRound ((⟨11, 1, true, true⟩ : PoolMembership).weight * (2 : Nat))).toNat :=
  ⟨by decide, (claim_C1.1 2 [⟨11, 1, true, true⟩]).2 ⟨11, 1, true, true⟩ (by decide)⟩

/-- C2: a strict recompute whose demand exceeds capacity returns the
capacity diagnostic `{token_count, endpoint_count,
max_slots_per_endpoint, weight_sum, capacity}` and leaves the Binding
Registry exactly as it was. -/
theorem claim_C2 (reg : List Binding) (poolId : Nat) (ms : List PoolMembership)
    (creds : List Nat) (k : Nat) (now : Int)
    (hdemand : capacity k ms < creds.length) :
    recompute reg poolId ms creds k true now =
      .error ⟨creds.length, endpointCount ms, k, weightSum ms, capacity k ms⟩ ∧
    applyRecompute reg poolId ms creds k true now =
      (reg, some ⟨creds.length, endpointCount ms, k, weightSum ms, capacity k ms⟩) := by
  have hnone : planLoop true (sortNat creds) (epStatesOf k ms) = none := by
    rw [planLoop_strict_none_iff, totalRem_epStatesOf, sortNat_length]
    exact hdemand
  have h1 : recompute reg poolId ms creds k true now =
      .error ⟨creds.length, endpointCount ms, k, weightSum ms, capacity k ms⟩ := by
    simp only [recompute, hnone, sortNat_length]
  exact ⟨h1, by simp only [applyRecompute, h1]⟩

theorem claim_C2_witness :
    recompute [] 1 [⟨11, 1, true, true⟩] [1, 2, 3, 4, 5] 2 true 0 =
      .error ⟨5, endpointCount [⟨11, 1, true, true⟩], 2,
        weightSum [⟨11, 1, true, true⟩], capacity 2 [⟨11, 1, true, true⟩]⟩ ∧
    applyRecompute [] 1 [⟨11, 1, true, true⟩] [1, 2, 3, 4, 5] 2 true 0 =
      ([], some ⟨5, endpointCount [⟨11, 1, true, true⟩], 2,
        weightSum [⟨11, 1, true, true⟩], capacity 2 [⟨11, 1, true, true⟩]⟩) :=
  claim_C2 [] 1 [⟨11, 1, true, true⟩] [1, 2, 3, 4, 5] 2 0
    (by simp [scenarioCapacity])

/-- C6: the Planner's credential → endpoint map is deterministic — it is
a pure function of the memberships, the set of enabled credentials, and
the per-endpoint cap, and does not depend on the order in which the
credentials are supplied. -/
theorem claim_C6 (ms : List PoolMembership) (k : Nat) (strict : Bool)
    (creds1 creds2 : List Nat) (hperm : creds1.Perm creds2) :
    planAssignments ms creds1 k strict = planAssignments ms creds2 k strict := by
  rw [planAssignments, planAssignments, sortNat_eq_of_perm _ _ hperm]

theorem claim_C6_witness :
    planAssignments [⟨11, 1, true, true⟩] [2, 1, 3] 2 false =
      planAssignments [⟨11, 1, true, true⟩] [1, 2, 3] 2 false :=
  claim_C6 [⟨11, 1, true, true⟩] 2 false [2, 1, 3] [1, 2, 3] (by decide)

/-- C7: `set_override` requires a positive ttl of at most 30 days
(43200 minutes); a ttl outside that range fails validation and the
registry is not mutated. -/
theorem claim_C7 (reg : List Binding) (ms : List PoolMembership) (bindingId epId : Nat)
    (ttlMs now : Int) (hbad : ttlMs ≤ 0 ∨ maxOverrideTtlMs < ttlMs) :
    setOverride reg ms bindingId epId ttlMs now = .error .validationError ∧
    applySetOverride reg ms bindingId epId ttlMs now = (reg, some .validationError) := by
  have h1 : setOverride reg ms bindingId epId ttlMs now = .error .validationError := by
    rw [setOverride, if_pos hbad]
  exact ⟨h1, by rw [applySetOverride, h1]⟩

theorem claim_C7_witness :
    setOverride [] [] 1 11 (43200 * 60 * 1000 + 1) 0 = .error .validationError ∧
    applySetOverride [] [] 1 11 (43200 * 60 * 1000 + 1) 0 = ([], some .validationError) :=
  claim_C7 [] [] 1 11 (43200 * 60 * 1000 + 1) 0 (by right; decide)

/-- C9: a recompute request without an explicit strict flag runs with
strict admission: the bindings page itself fills in `strict: true` when
its caller supplies none, and the request-level operation defaults a
missing strict field to `true`. -/
theorem claim_C9 :
    (∀ poolId maxPer, (recomputeBody poolId maxPer none).strict = true ∧
      (recomputeBody poolId maxPer (some none)).strict = true) ∧
    (∀ reg poolId ms creds k now,
      recomputeRequest reg poolId ms creds k none now =
        recompute reg poolId ms creds k true now) :=
  ⟨fun _ _ => ⟨rfl, rfl⟩, fun _ _ _ _ _ _ => rfl⟩

/-- C3: a successful recompute never touches override fields — every
pre-existing binding keeps its identity and both override fields, and an
override active before the recompute is still the effective endpoint
afterwards until it expires or is cleared. -/
theorem claim_C3 (reg : List Binding) (poolId : Nat) (ms : List PoolMembership)
    (creds : List Nat) (k : Nat) (s : Bool) (now : Int) (reg2 : List Binding)
    (out : RecomputeOk)
    (hok : recompute reg poolId ms creds k s now = .ok (reg2, out)) :
    ∀ b ∈ reg, ∃ b' ∈ reg2,
      b'.id = b.id ∧ b'.tokenId = b.tokenId ∧ b'.poolId = b.poolId ∧
      b'.overrideEndpointId = b.overrideEndpointId ∧
      b'.overrideExpiresAt = b.overrideExpiresAt ∧
      ∀ e t now2, b.overrideEndpointId = some e → b.overrideExpiresAt = some t →
        now2 < t → effective b' now2 = (some e, .override) := by
  have hcommit : ∃ r : PlanOk, reg2 = commitAssignments poolId now reg r.assignments := by
    simp only [recompute] at hok
    cases hplan : planLoop s (sortNat creds) (epStatesOf k ms) with
    | none => rw [hplan] at hok; exact Except.noConfusion hok
    | some r =>
      rw [hplan] at hok
      dsimp only at hok
      injection hok with hok
      injection hok with hok1 hok2
      exact ⟨r, hok1.symm⟩
  obtain ⟨r, hreg⟩ := hcommit
  subst hreg
  intro b hb
  obtain ⟨b', hb', h1, h2, h3, h4, h5⟩ :=
    commitAssignments_frame poolId now reg r.assignments b hb
  refine ⟨b', hb', h1, h2, h3, h4, h5, ?_⟩
  intro e t now2 he ht hlt
  rw [effective, h4, h5, he, ht]
  dsimp only
  rw [if_pos hlt]

theorem claim_C3_witness :
    ∃ b' ∈ [(⟨1, 1, 1, some 11, some 99, some 1000, 0⟩ : Binding)],
      b'.id = (⟨1, 1, 1, some 5, some 99, some 1000, -3⟩ : Binding).id ∧
      b'.tokenId = (⟨1, 1, 1, some 5, some 99, some 1000, -3⟩ : Binding).tokenId ∧
      b'.poolId = (⟨1, 1, 1, some 5, some 99, some 1000, -3⟩ : Binding).poolId ∧
      b'.overrideEndpointId =
        (⟨1, 1, 1, some 5, some 99, some 1000, -3⟩ : Binding).overrideEndpointId ∧
      b'.overrideExpiresAt =
        (⟨1, 1, 1, some 5, some 99, some 1000, -3⟩ : Binding).overrideExpiresAt ∧
      ∀ e t now2,
        (⟨1, 1, 1, some 5, some 99, some 1000, -3⟩ : Binding).overrideEndpointId = some e →
        (⟨1, 1, 1, some 5, some 99, some 1000, -3⟩ : Binding).overrideExpiresAt = some t →
        now2 < t → effective b' now2 = (some e, .override) :=
  claim_C3 [⟨1, 1, 1, some 5, some 99, some 1000, -3⟩] 1 [⟨11, 1, true, true⟩] [1] 2 true 0
    [⟨1, 1, 1, some 11, some 99, some 1000, 0⟩] ⟨1, 1, true, 0, 2, 1, 1, 2⟩
    (by simp only [recompute, scenarioEps, scenarioCapacity, scenarioWeightSum]; decide)
    ⟨1, 1, 1, some 5, some 99, some 1000, -3⟩ (by decide)

/-- C4: `effective` is a pure function of the binding and `now`: it
returns the override endpoint in override mode exactly while the
override is set and unexpired, and the primary endpoint in primary mode
otherwise — in particular an expired override reverts with no write. -/
theorem claim_C4 (b : Binding) (now : Int) :
    (∀ e t, b.overrideEndpointId = some e → b.overrideExpiresAt = some t →
      (now < t → effective b now = (some e, .override)) ∧
      (t ≤ now → effective b now = (b.primaryEndpointId, .primary))) ∧
    (b.overrideEndpointId = none ∨ b.overrideExpiresAt = none →
      effective b now = (b.primaryEndpointId, .primary)) := by
  constructor
  · intro e t he ht
    constructor
    · intro hlt
      rw [effective, he, ht]
      dsimp only
      rw [if_pos hlt]
    · intro hge
      rw [effective, he, ht]
      dsimp only
      rw [if_neg (not_lt.mpr hge)]
  · rintro (h | h)
    · rw [effective, h]
    · cases ho : b.overrideEndpointId with
      | none => rw [effective, ho]
      | some e => rw [effective, ho, h]

theorem claim_C4_witness :
    (50 : Int) < 100 ∧
    effective ⟨1, 1, 1, some 5, some 9, some 100, 0⟩ 50 = (some 9, .override) ∧
    effective ⟨1, 1, 1, some 5, some 9, some 100, 0⟩ 200 =
      ((⟨1, 1, 1, some 5, some 9, some 100, 0⟩ : Binding).primaryEndpointId, .primary) ∧
    effective ⟨1, 1, 1, some 5, none, none, 0⟩ 50 =
      ((⟨1, 1, 1, some 5, none, none, 0⟩ : Binding).primaryEndpointId, .primary) :=
  ⟨by decide,
    ((claim_C4 ⟨1, 1, 1, some 5, some 9, some 100, 0⟩ 50).1 9 100 rfl rfl).1 (by decide),
    ((claim_C4 ⟨1, 1, 1, some 5, some 9, some 100, 0⟩ 200).1 9 100 rfl rfl).2 (by decide),
    (claim_C4 ⟨1, 1, 1, some 5, none, none, 0⟩ 50).2 (Or.inl rfl)⟩

/-- C5: a lenient recompute whose demand exceeds a non-empty pool's
capacity assigns every credential, and `over_capacity_assigned` equals
the number of credentials routed beyond their endpoint's nominal slot
count; Scenario B (five credentials, one endpoint of capacity 2) yields
`{recomputed: 5, over_capacity_assigned: 3, capacity: 2, token_count: 5,
endpoint_count: 1}`. -/
theorem claim_C5 (ms : List PoolMembership) (creds : List Nat) (k : Nat)
    (reg : List Binding) (poolId : Nat) (now : Int)
    (hep : 0 < endpointCount ms) (_hdemand : capacity k ms < creds.length) :
    (∃ r, planLoop false (sortNat creds) (epStatesOf k ms) = some r ∧
      r.assignments.map Prod.fst = sortNat creds ∧
      r.overCapacityAssigned = overShoot r.finalEps ∧
      recompute reg poolId ms creds k false now =
        .ok (commitAssignments poolId now reg r.assignments,
          ⟨poolId, creds.length, false, r.overCapacityAssigned, capacity k ms,
            creds.length, endpointCount ms, k⟩)) ∧
    (recompute [] 1 [⟨11, 1, true, true⟩] [1, 2, 3, 4, 5] 2 false 0).map Prod.snd =
      .ok ⟨1, 5, false, 3, 2, 5, 1, 2⟩ := by
  constructor
  · have hne : epStatesOf k ms ≠ [] := by
      intro h
      rw [← length_epStatesOf k ms, h] at hep
      simp at hep
    obtain ⟨r, hr, hmap, hover⟩ := planLoop_lenient_total (sortNat creds) _ hne
    rw [overShoot_epStatesOf] at hover
    have hlen : r.assignments.length = creds.length := by
      have hl := congrArg List.length hmap
      rw [List.length_map] at hl
      rw [hl, sortNat_length]
    refine ⟨r, hr, hmap, by omega, ?_⟩
    simp only [recompute, hr, sortNat_length, hlen]
  · simp only [recompute, scenarioEps, scenarioCapacity, scenarioWeightSum]
    decide

theorem claim_C5_witness :
    (∃ r, planLoop false (sortNat [1, 2, 3, 4, 5]) (epStatesOf 2 [⟨11, 1, true, true⟩]) =
        some r ∧
      r.assignments.map Prod.fst = sortNat [1, 2, 3, 4, 5] ∧
      r.overCapacityAssigned = overShoot r.finalEps ∧
      recompute [] 7 [⟨11, 1, true, true⟩] [1, 2, 3, 4, 5] 2 false 3 =
        .ok (commitAssignments 7 3 [] r.assignments,
          ⟨7, 5, false, r.overCapacityAssigned, capacity 2 [⟨11, 1, true, true⟩], 5,
            endpointCount [⟨11, 1, true, true⟩], 2⟩)) ∧
    (recompute [] 1 [⟨11, 1, true, true⟩] [1, 2, 3, 4, 5] 2 false 0).map Prod.snd =
      .ok ⟨1, 5, false, 3, 2, 5, 1, 2⟩ :=
  claim_C5 [⟨11, 1, true, true⟩] [1, 2, 3, 4, 5] 2 [] 7 3 (by decide)
    (by simp [scenarioCapacity])

theorem clearUpd_id (bindingId : Nat) (b : Binding) : (clearUpd bindingId b).id = b.id := by
  rw [clearUpd]
  split <;> rfl

theorem clearUpd_idem (bindingId : Nat) (b : Binding) :
    clearUpd bindingId (clearUpd bindingId b) = clearUpd bindingId b := by
  by_cases h : b.id = bindingId
  · simp [clearUpd, h]
  · simp [clearUpd, h]

theorem clearUpd_noop (bindingId : Nat) (b : Binding)
    (h1 : b.overrideEndpointId = none) (h2 : b.overrideExpiresAt = none) :
    clearUpd bindingId b = b := by
  rw [clearUpd]
  split
  · cases b
    dsimp only at h1 h2
    rw [h1, h2]
  · rfl

/-- C8: `clear_override` is idempotent on every existing binding:
clearing succeeds, clearing again returns exactly the same registry, and
clearing a binding whose override fields are already null is a no-op
success. -/
theorem claim_C8 (reg : List Binding) (bindingId : Nat)
    (hex : ∃ b ∈ reg, b.id = bindingId) :
    ∃ reg1, clearOverride reg bindingId = .ok reg1 ∧
      clearOverride reg1 bindingId = .ok reg1 ∧
      ((∀ b ∈ reg, b.id = bindingId →
          b.overrideEndpointId = none ∧ b.overrideExpiresAt = none) → reg1 = reg) := by
  obtain ⟨b0, hb0, hid0⟩ := hex
  have hany : reg.any (fun b => b.id = bindingId) = true := by
    rw [List.any_eq_true]
    exact ⟨b0, hb0, by simp [hid0]⟩
  have hany2 : (reg.map (clearUpd bindingId)).any (fun b => b.id = bindingId) = true := by
    rw [List.any_eq_true]
    exact ⟨clearUpd bindingId b0, List.mem_map_of_mem _ hb0, by simp [clearUpd_id, hid0]⟩
  refine ⟨reg.map (clearUpd bindingId), ?_, ?_, ?_⟩
  · rw [clearOverride, if_pos hany]
  · rw [clearOverride, if_pos hany2, List.map_map]
    have hmm : reg.map (clearUpd bindingId ∘ clearUpd bindingId) = reg.map (clearUpd bindingId) :=
      List.map_congr_left fun b _ => clearUpd_idem bindingId b
    rw [hmm]
  · intro hall
    have : reg.map (clearUpd bindingId) = reg.map id :=
      List.map_congr_left fun b hb => by
        by_cases h : b.id = bindingId
        · obtain ⟨h1, h2⟩ := hall b hb h
          exact clearUpd_noop bindingId b h1 h2
        · simp [clearUpd, h]
    rw [this, List.map_id]

theorem claim_C8_witness :
    ∃ reg1, clearOverride [(⟨1, 1, 1, some 5, some 9, some 100, 0⟩ : Binding)] 1 = .ok reg1 ∧
      clearOverride reg1 1 = .ok reg1 ∧
      ((∀ b ∈ [(⟨1, 1, 1, some 5, some 9, some 100, 0⟩ : Binding)], b.id = 1 →
          b.overrideEndpointId = none ∧ b.overrideExpiresAt = none) →
        reg1 = [(⟨1, 1, 1, some 5, some 9, some 100, 0⟩ : Binding)]) :=
  claim_C8 [⟨1, 1, 1, some 5, some 9, some 100, 0⟩] 1 (by decide)

/-- C10 counterexample: the pools page's filter only requires
`Number.isFinite(v.endpoint_id) && v.endpoint_id > 0`; the non-integer
id value 3/2 (e.g. a row key `"1.5"`) is kept and sent, so the sent
items do not all carry an *integer* endpoint id. -/
theorem claim_C10_counterexample :
    setPoolEndpointsItems [(JSNum.fin (3 / 2), none)] =
      [⟨JSNum.fin (3 / 2), true, JSNum.fin 1⟩] ∧
    ¬ ∃ n : Int, (3 / 2 : ℚ) = (n : ℚ) := by
  constructor
  · norm_num [setPoolEndpointsItems, buildPoolItem, JSNum.truthy, JSNum.isFiniteNum,
      JSNum.gtZero, List.filter]
  · rintro ⟨n, hn⟩
    have h3 : (3 : ℚ) = 2 * (n : ℚ) := by
      field_simp at hn
      linarith
    have h3' : (3 : Int) = 2 * n := by exact_mod_cast h3
    omega

/-- C10 (amended): every item the pools page sends has a finite positive
(not necessarily integer) `endpoint_id` — entries whose id is not a
positive finite number are dropped — and its weight is replaced by 1
whenever the configured weight is absent, zero, or NaN; hence no item is
sent with weight 0 or weight NaN. -/
theorem claim_C10 :
    (∀ sel, ∀ v ∈ setPoolEndpointsItems sel,
      (∃ q : ℚ, v.endpoint_id = .fin q ∧ 0 < q) ∧
      v.weight ≠ .fin 0 ∧ v.weight ≠ .nan) ∧
    (∀ idNum en,
      (buildPoolItem idNum none).weight = .fin 1 ∧
      (buildPoolItem idNum (some ⟨en, .fin 0⟩)).weight = .fin 1 ∧
      (buildPoolItem idNum (some ⟨en, .nan⟩)).weight = .fin 1) := by
  constructor
  · intro sel v hv
    rw [setPoolEndpointsItems, List.mem_filter] at hv
    obtain ⟨hmem, hpred⟩ := hv
    rw [Bool.and_eq_true] at hpred
    obtain ⟨hfin, hgt⟩ := hpred
    constructor
    · cases hid : v.endpoint_id with
      | fin q =>
        refine ⟨q, rfl, ?_⟩
        rw [hid] at hgt
        simpa [JSNum.gtZero] using hgt
      | nan => rw [hid] at hfin; exact Bool.noConfusion hfin
      | posInf => rw [hid] at hfin; exact Bool.noConfusion hfin
      | negInf => rw [hid] at hfin; exact Bool.noConfusion hfin
    · rw [List.mem_map] at hmem
      obtain ⟨p, hp, hvp⟩ := hmem
      subst hvp
      rw [buildPoolItem]
      dsimp only
      by_cases ht : ((p.2.getD ⟨true, .fin 1⟩).weight).truthy = true
      · rw [if_pos ht]
        cases hw : (p.2.getD ⟨true, .fin 1⟩).weight with
        | fin q =>
          rw [hw] at ht
          simp only [JSNum.truthy, decide_eq_true_eq] at ht
          exact ⟨by simpa using ht, by simp⟩
        | nan => rw [hw] at ht; exact absurd ht (by simp [JSNum.truthy])
        | posInf => exact ⟨by simp, by simp⟩
        | negInf => exact ⟨by simp, by simp⟩
      · rw [if_neg ht]
        exact ⟨by simp, by simp⟩
  · intro idNum en
    refine ⟨?_, ?_, ?_⟩ <;> simp [buildPoolItem, JSNum.truthy]

theorem claim_C10_witness :
    ((∃ q : ℚ, (⟨JSNum.fin 2, true, JSNum.fin 1⟩ : PoolEndpointItem).endpoint_id =
        .fin q ∧ 0 < q) ∧
      (⟨JSNum.fin 2, true, JSNum.fin 1⟩ : PoolEndpointItem).weight ≠ .fin 0 ∧
      (⟨JSNum.fin 2, true, JSNum.fin 1⟩ : PoolEndpointItem).weight ≠ .nan) ∧
    (buildPoolItem (JSNum.fin 2) none).weight = .fin 1 ∧
    (buildPoolItem (JSNum.fin 2) (some ⟨true, .fin 0⟩)).weight = .fin 1 ∧
    (buildPoolItem (JSNum.fin 2) (some ⟨true, .nan⟩)).weight = .fin 1 :=
  ⟨claim_C10.1 [(JSNum.fin 2, none)] ⟨JSNum.fin 2, true, JSNum.fin 1⟩ (by decide),
    claim_C10.2 (JSNum.fin 2) true⟩
